import Mathlib

/-!
Shallow embedding of the long-term-memory vector-store module and of the
BigQuery server's query tool handler.

The embedded source consists of two parts:
* the BigQuery MCP server (`qualifyTablePath`, the `CallToolRequestSchema`
  handler with its read-only SQL validation), and
* the LanceDB-backed versioned vector store (`initializeVectorStore`,
  `addOrUpdateMemoryItems`, `searchLongTermMemory`).

Conventions of the embedding:
* JavaScript numbers used as timestamps and scores are modelled as `Int`
  (only their ordering matters to the embedded logic);
* a possibly-absent field (`insert_timestamp` on legacy rows, a missing
  `score`) is an `Option`;
* the opaque remote collaborators (LanceDB connection, embedding service,
  BigQuery backend) are modelled by explicit outcome parameters of type
  `Except String _`: a `.error` models the corresponding awaited call
  throwing, `.ok` models it returning;
* the process-wide mutable state (`db`, `table`, `isInitialized`) is an
  explicit state record threaded through `initializeVectorStore`;
* the JavaScript `Map` (insertion-ordered, `set` on an existing key keeps
  the key's original position) is an association list with an
  order-preserving `mapSet`;
* `Array.prototype.sort` (stable, comparator `(b.score || 0) - (a.score || 0)`)
  is `List.mergeSort` (stable) with the boolean relation
  `(b.score.getD 0) ≤ (a.score.getD 0)`.
-/

/-- `SearchResultItem` from the source: one fetched row of the
`long_term_memory` table together with the similarity `score` added by the
engine.  `insert_timestamp` is absent (`none`) on legacy rows written before
versioning existed; `score` is `Option` because the de-duplication code
defensively treats a missing score as zero (`b.score || 0`). -/
structure SearchResultItem where
  id : String
  text : String
  vector : List Int
  metadata_timestamp : Int
  metadata_stage : String
  score : Option Int
  insert_timestamp : Option Int
  deriving DecidableEq, Repr

/-- The insertion-ordered map `Map<string, SearchResultItem>` of the
de-duplication loop, as an association list in insertion order. -/
abbrev LatestByIdMap := List (String × SearchResultItem)

/-- `map.get(k)`: the value stored under `k`, if any. -/
def mapGet (m : LatestByIdMap) (k : String) : Option SearchResultItem :=
  match m with
  | [] => none
  | (k', v) :: rest => if k' = k then some v else mapGet rest k

/-- `map.has(k)`. -/
def mapHas (m : LatestByIdMap) (k : String) : Bool :=
  match m with
  | [] => false
  | (k', _) :: rest => k' = k || mapHas rest k

/-- `map.set(k, v)`: JavaScript `Map.set` updates an existing key in place
(keeping its insertion position) and appends a fresh key at the end. -/
def mapSet (m : LatestByIdMap) (k : String) (v : SearchResultItem) : LatestByIdMap :=
  match m with
  | [] => [(k, v)]
  | (k', v') :: rest => if k' = k then (k, v) :: rest else (k', v') :: mapSet rest k v

/-- One iteration of the `for (const item of results)` loop of
`searchLongTermMemory` (source lines 362–386): versioned rows replace the
current entry for their id when there is no entry, the entry is legacy, or
the entry's `insert_timestamp` is strictly older; legacy rows are inserted
only into an empty slot. -/
def dedupStep (m : LatestByIdMap) (item : SearchResultItem) : LatestByIdMap :=
  match item.insert_timestamp with
  | some itemTimestamp =>
    match mapGet m item.id with
    | none => mapSet m item.id item
    | some existingItem =>
      match existingItem.insert_timestamp with
      | none => mapSet m item.id item
      | some existingTimestamp =>
        if existingTimestamp < itemTimestamp then mapSet m item.id item else m
  | none =>
    if mapHas m item.id then m else mapSet m item.id item

/-- The `latestByIdMap` after the de-duplication loop has consumed all
fetched rows. -/
def latestById (results : List SearchResultItem) : LatestByIdMap :=
  results.foldl dedupStep []

/-- The boolean comparison underlying the comparator
`(a, b) => (b.score || 0) - (a.score || 0)`: `a` may come no later than `b`
exactly when `a`'s score (missing treated as zero) is at least `b`'s. -/
def scoreDescLe (a b : SearchResultItem) : Bool :=
  b.score.getD 0 ≤ a.score.getD 0

/-- `Array.from(latestByIdMap.values()).sort(...).slice(0, topN)`
(source lines 389–391): the de-duplicated rows in map insertion order,
stably sorted by descending score, truncated to `topN`. -/
def dedupedResults (results : List SearchResultItem) (topN : Nat) : List SearchResultItem :=
  (((latestById results).map Prod.snd).mergeSort scoreDescLe).take topN

/-- `searchLongTermMemory` (source lines 331–402).  `initOutcome` is the
state of the module after `await initializeVectorStore()`: `.error e` models
that call throwing (the `await` is outside the `try`, so the error
propagates), `.ok none` models it returning with no table handle, and
`.ok (some ())` models a usable table.  `fetchOutcome` models
`await query.toArray()`: `.error` when the engine throws, `.ok results`
when it returns the candidate rows.  The returned value is `.error` when the
call throws to its caller, `.ok` with the returned array otherwise. -/
def searchLongTermMemory (initOutcome : Except String (Option Unit))
    (queryEmbedding : List Int) (topN : Nat)
    (fetchOutcome : Except String (List SearchResultItem)) :
    Except String (List SearchResultItem) :=
  match initOutcome with
  | .error e => .error e
  | .ok none => .ok []
  | .ok (some _) =>
    if queryEmbedding.isEmpty then .ok []
    else
      match fetchOutcome with
      | .error _ => .ok []
      | .ok results => .ok (dedupedResults results topN)

/-- `LongTermMemoryData` from the source: the caller-supplied memory item
handed to the write path, before an `insert_timestamp` is attached. -/
structure LongTermMemoryData where
  id : String
  text : String
  vector : List Int
  metadata_timestamp : Int
  metadata_stage : String
  deriving DecidableEq, Repr

/-- A physical row as appended by `addOrUpdateMemoryItems`: the item plus
the stamped `insert_timestamp` (`new Date()` at write time). -/
structure StoredRow where
  id : String
  text : String
  vector : List Int
  metadata_timestamp : Int
  metadata_stage : String
  insert_timestamp : Int
  deriving DecidableEq, Repr

/-- `items.map(item => ({...item, insert_timestamp: new Date()}))`: stamp
each item with the current time `now`. -/
def timestampItems (items : List LongTermMemoryData) (now : Int) : List StoredRow :=
  items.map fun item =>
    ⟨item.id, item.text, item.vector, item.metadata_timestamp, item.metadata_stage, now⟩

/-- Observable outcome of a completed (non-throwing) `addOrUpdateMemoryItems`
call: which early return was taken, or which rows were appended, or that the
append threw and was swallowed by the `catch`. -/
inductive WriteOutcome where
  | noTable
  | noItems
  | appendFailed
  | appended (rows : List StoredRow)
  deriving DecidableEq, Repr

/-- `addOrUpdateMemoryItems` (source lines 270–311).  `initOutcome` models
the module state after `await initializeVectorStore()` exactly as in
`searchLongTermMemory`; `now` is the clock value used for the
`insert_timestamp` stamps; `addResult` models `await table.add(...)`.
The result is `.error` when the call throws to its caller and `.ok` with
the observable outcome when it returns normally. -/
def addOrUpdateMemoryItems (initOutcome : Except String (Option Unit))
    (items : List LongTermMemoryData) (now : Int)
    (addResult : Except String Unit) : Except String WriteOutcome :=
  match initOutcome with
  | .error e => .error e
  | .ok none => .ok .noTable
  | .ok (some _) =>
    if items.isEmpty then .ok .noItems
    else
      match addResult with
      | .error _ => .ok .appendFailed
      | .ok _ => .ok (.appended (timestampItems items now))

/-- The fixed table name constant. -/
def TABLE_NAME : String := "long_term_memory"

/-- The module-level mutable state of the vector store:
`db`, `table` and `isInitialized` (source lines 207–209).  The opaque
connection and table handles are modelled as `Unit`. -/
structure VSState where
  db : Option Unit
  table : Option Unit
  isInitialized : Bool
  deriving DecidableEq, Repr

/-- Outcomes of the awaited collaborator calls an `initializeVectorStore`
run may perform, in program order: `connect`, `db.tableNames()`,
`db.openTable` (when the table exists), `getEmbeddings("schema_init")`
(`.ok none` models the embedding service returning `undefined`), and
`db.createTable` (when the table is missing). -/
structure InitEnv where
  connectResult : Except String Unit
  tableNamesResult : Except String (List String)
  openTableResult : Except String Unit
  embeddingResult : Except String (Option (List Int))
  createTableResult : Except String Unit
  deriving Repr

/-- Result of one `initializeVectorStore` call: the module state after the
call, the call's outcome (`.error e` models the re-thrown exception), and
the number of `db.createTable` calls performed (0 or 1), recorded so that
table-creation attempts across repeated calls can be counted. -/
structure InitResult where
  state : VSState
  outcome : Except String Unit
  createAttempts : Nat
  deriving Repr

/-- `initializeVectorStore` (source lines 214–263).  If `isInitialized` is
set it returns at once; otherwise it connects, lists tables, and either
opens the existing table or determines the embedding dimension (failing
when the sample embedding is absent or empty) and creates the table from a
dummy row.  The `catch` block resets `isInitialized`, `db` and `table` and
re-throws, so any failing run ends in the cleared state with an `.error`
outcome. -/
def initializeVectorStore (st : VSState) (env : InitEnv) : InitResult :=
  if st.isInitialized then ⟨st, .ok (), 0⟩
  else
    match env.connectResult with
    | .error e => ⟨⟨none, none, false⟩, .error e, 0⟩
    | .ok conn =>
      match env.tableNamesResult with
      | .error e => ⟨⟨none, none, false⟩, .error e, 0⟩
      | .ok tableNames =>
        if tableNames.contains TABLE_NAME then
          match env.openTableResult with
          | .error e => ⟨⟨none, none, false⟩, .error e, 0⟩
          | .ok tbl => ⟨⟨some conn, some tbl, true⟩, .ok (), 0⟩
        else
          match env.embeddingResult with
          | .error e => ⟨⟨none, none, false⟩, .error e, 0⟩
          | .ok sampleEmbedding =>
            let embeddingDimension := (sampleEmbedding.map List.length).getD 0
            if embeddingDimension = 0 then
              ⟨⟨none, none, false⟩,
                .error "Could not determine embedding dimension. Ensure embedding service is configured and API key is valid.", 0⟩
            else
              match env.createTableResult with
              | .error e => ⟨⟨none, none, false⟩, .error e, 1⟩
              | .ok tbl => ⟨⟨some conn, some tbl, true⟩, .ok (), 1⟩

/-- A sequence of `initializeVectorStore` calls from a starting state,
one per environment, threading the state and accumulating the number of
table-creation attempts and of successful table creations.  A call counts
as a successful creation when it performed a `createTable` call and
returned normally. -/
def initRun (st : VSState) (envs : List InitEnv) : VSState × Nat × Nat :=
  match envs with
  | [] => (st, 0, 0)
  | env :: rest =>
    let r := initializeVectorStore st env
    let tail := initRun r.state rest
    (tail.1, r.createAttempts + tail.2.1,
      (if r.createAttempts = 1 ∧ r.outcome.isOk then 1 else 0) + tail.2.2)

/-- `startsWithList hay needle`: `needle` is a prefix of `hay`
(character-by-character). -/
def startsWithList : List Char → List Char → Bool
  | _, [] => true
  | [], _ :: _ => false
  | a :: as, b :: bs => a = b && startsWithList as bs

/-- `hasSub hay needle`: JavaScript `hay.includes(needle)` on character
lists — `needle` occurs contiguously somewhere in `hay`. -/
def hasSub (hay needle : List Char) : Bool :=
  match hay with
  | [] => needle.isEmpty
  | _ :: rest => startsWithList hay needle || hasSub rest needle

/-- The read-only validation of the `query` tool handler (source lines
135–140): the uppercased SQL contains any of the five write keywords as a
plain substring. -/
def containsWriteKeyword (sql : String) : Bool :=
  let upperSql := sql.toList.map Char.toUpper
  hasSub upperSql "INSERT".toList || hasSub upperSql "UPDATE".toList ||
    hasSub upperSql "DELETE".toList || hasSub upperSql "CREATE".toList ||
    hasSub upperSql "DROP".toList

/-- The `query` branch of the `CallToolRequestSchema` handler (source lines
129–165): the read-only validation runs first and throws
`Only READ operations are allowed` before anything else; `rest` models the
entire remainder of the handler (INFORMATION_SCHEMA qualification and the
BigQuery call), which is reached only when the validation passes. -/
def queryToolHandler (sql : String) (rest : Except String (List String)) :
    Except String (List String) :=
  if containsWriteKeyword sql then .error "Only READ operations are allowed"
  else rest

/-- The replacement condition for a versioned row as the spec states it:
no entry yet for the id, or the existing entry is a legacy entry, or the
existing entry's timestamp is strictly earlier than `ts`.  Stated from the
spec's words, to be compared with the branch structure of `dedupStep`. -/
def specReplaceCond (m : LatestByIdMap) (id : String) (ts : Int) : Bool :=
  match mapGet m id with
  | none => true
  | some existingItem =>
    match existingItem.insert_timestamp with
    | none => true
    | some existingTs => existingTs < ts

theorem dedupStep_legacy (m : LatestByIdMap) (item : SearchResultItem)
    (h : item.insert_timestamp = none) :
    dedupStep m item = if mapHas m item.id then m else mapSet m item.id item := by
  simp [dedupStep, h]

theorem dedupStep_versioned_empty (m : LatestByIdMap) (item : SearchResultItem) (ts : Int)
    (h1 : item.insert_timestamp = some ts) (h2 : mapGet m item.id = none) :
    dedupStep m item = mapSet m item.id item := by
  simp [dedupStep, h1, h2]

theorem dedupStep_versioned_overLegacy (m : LatestByIdMap) (item ex : SearchResultItem)
    (ts : Int) (h1 : item.insert_timestamp = some ts) (h2 : mapGet m item.id = some ex)
    (h3 : ex.insert_timestamp = none) :
    dedupStep m item = mapSet m item.id item := by
  simp [dedupStep, h1, h2, h3]

theorem dedupStep_versioned_cmp (m : LatestByIdMap) (item ex : SearchResultItem)
    (ts ts' : Int) (h1 : item.insert_timestamp = some ts)
    (h2 : mapGet m item.id = some ex) (h3 : ex.insert_timestamp = some ts') :
    dedupStep m item = if ts' < ts then mapSet m item.id item else m := by
  simp [dedupStep, h1, h2, h3]

theorem mapHas_eq_isSome (m : LatestByIdMap) (k : String) :
    mapHas m k = (mapGet m k).isSome := by
  induction m with
  | nil => rfl
  | cons p rest ih =>
    by_cases h : p.1 = k <;> simp [mapHas, mapGet, h, ih]

theorem mapHas_iff_mem_keys (m : LatestByIdMap) (k : String) :
    mapHas m k = true ↔ k ∈ m.map Prod.fst := by
  induction m with
  | nil => simp [mapHas]
  | cons p rest ih =>
    simp only [mapHas, Bool.or_eq_true, decide_eq_true_eq, ih, List.map_cons,
      List.mem_cons]
    exact or_congr ⟨fun h => h.symm, fun h => h.symm⟩ Iff.rfl

theorem keys_mapSet (m : LatestByIdMap) (k : String) (v : SearchResultItem) :
    (mapSet m k v).map Prod.fst =
      if mapHas m k then m.map Prod.fst else m.map Prod.fst ++ [k] := by
  induction m with
  | nil => simp [mapSet, mapHas]
  | cons p rest ih =>
    by_cases h : p.1 = k
    · simp [mapSet, mapHas, h]
    · by_cases h' : mapHas rest k <;> simp [mapSet, mapHas, h, h', ih]

theorem length_mapSet (m : LatestByIdMap) (k : String) (v : SearchResultItem) :
    (mapSet m k v).length = if mapHas m k then m.length else m.length + 1 := by
  have h := congrArg List.length (keys_mapSet m k v)
  simp only [List.length_map] at h
  rw [h]
  by_cases h' : mapHas m k <;> simp [h']

theorem dedupStep_cases (m : LatestByIdMap) (item : SearchResultItem) :
    dedupStep m item = m ∨ dedupStep m item = mapSet m item.id item := by
  rcases hts : item.insert_timestamp with _ | ts
  · rw [dedupStep_legacy m item hts]
    by_cases h : mapHas m item.id <;> simp [h]
  · rcases hget : mapGet m item.id with _ | ex
    · exact Or.inr (dedupStep_versioned_empty m item ts hts hget)
    · rcases hex : ex.insert_timestamp with _ | ts'
      · exact Or.inr (dedupStep_versioned_overLegacy m item ex ts hts hget hex)
      · rw [dedupStep_versioned_cmp m item ex ts ts' hts hget hex]
        by_cases hc : ts' < ts <;> simp [hc]

theorem keys_dedupStep (m : LatestByIdMap) (item : SearchResultItem) (i : String) :
    i ∈ (dedupStep m item).map Prod.fst ↔ i ∈ m.map Prod.fst ∨ i = item.id := by
  have hkeysSet : ∀ v : SearchResultItem,
      i ∈ (mapSet m item.id v).map Prod.fst ↔ i ∈ m.map Prod.fst ∨ i = item.id := by
    intro v
    rw [keys_mapSet]
    by_cases h : mapHas m item.id
    · simp only [h, if_true]
      constructor
      · exact Or.inl
      · rintro (hm | rfl)
        · exact hm
        · exact (mapHas_iff_mem_keys m _).mp h
    · simp [h]
  have hmemOfGet : ∀ ex, mapGet m item.id = some ex → item.id ∈ m.map Prod.fst := by
    intro ex hget
    rw [← mapHas_iff_mem_keys, mapHas_eq_isSome, hget]
    rfl
  rcases hts : item.insert_timestamp with _ | ts
  · rw [dedupStep_legacy m item hts]
    by_cases h : mapHas m item.id
    · simp only [h, if_true]
      constructor
      · exact Or.inl
      · rintro (hm | rfl)
        · exact hm
        · exact (mapHas_iff_mem_keys m _).mp h
    · simp only [h, if_false]
      exact hkeysSet item
  · rcases hget : mapGet m item.id with _ | ex
    · rw [dedupStep_versioned_empty m item ts hts hget]
      exact hkeysSet item
    · rcases hex : ex.insert_timestamp with _ | ts'
      · rw [dedupStep_versioned_overLegacy m item ex ts hts hget hex]
        exact hkeysSet item
      · rw [dedupStep_versioned_cmp m item ex ts ts' hts hget hex]
        by_cases hc : ts' < ts
        · simp only [hc, if_true]
          exact hkeysSet item
        · simp only [hc, if_false]
          constructor
          · exact Or.inl
          · rintro (hm | rfl)
            · exact hm
            · exact hmemOfGet ex hget

theorem nodup_keys_mapSet (m : LatestByIdMap) (k : String) (v : SearchResultItem)
    (h : (m.map Prod.fst).Nodup) : ((mapSet m k v).map Prod.fst).Nodup := by
  rw [keys_mapSet]
  by_cases h' : mapHas m k
  · simpa [h']
  · simp only [h', if_false]
    refine List.Nodup.append h (List.nodup_singleton k) ?_
    intro a ha hb
    rw [List.mem_singleton] at hb
    subst hb
    exact h' ((mapHas_iff_mem_keys m a).mpr ha)

theorem nodup_keys_dedupStep (m : LatestByIdMap) (item : SearchResultItem)
    (h : (m.map Prod.fst).Nodup) : ((dedupStep m item).map Prod.fst).Nodup := by
  rcases dedupStep_cases m item with hc | hc <;> rw [hc]
  · exact h
  · exact nodup_keys_mapSet m item.id item h

theorem length_dedupStep_le (m : LatestByIdMap) (item : SearchResultItem) :
    (dedupStep m item).length ≤ m.length + 1 := by
  rcases dedupStep_cases m item with hc | hc <;> rw [hc]
  · omega
  · rw [length_mapSet]
    by_cases h : mapHas m item.id <;> simp [h]

theorem keys_foldl_dedupStep (l : List SearchResultItem) (m : LatestByIdMap) (i : String) :
    i ∈ (l.foldl dedupStep m).map Prod.fst ↔
      i ∈ m.map Prod.fst ∨ i ∈ l.map SearchResultItem.id := by
  induction l generalizing m with
  | nil => simp
  | cons r rest ih =>
    simp only [List.foldl_cons, ih, keys_dedupStep, List.map_cons, List.mem_cons]
    tauto

theorem nodup_keys_foldl_dedupStep (l : List SearchResultItem) (m : LatestByIdMap)
    (h : (m.map Prod.fst).Nodup) : ((l.foldl dedupStep m).map Prod.fst).Nodup := by
  induction l generalizing m with
  | nil => exact h
  | cons r rest ih => exact ih (dedupStep m r) (nodup_keys_dedupStep m r h)

theorem length_foldl_dedupStep_le (l : List SearchResultItem) (m : LatestByIdMap) :
    (l.foldl dedupStep m).length ≤ m.length + l.length := by
  induction l generalizing m with
  | nil => simp
  | cons r rest ih =>
    have h1 := ih (dedupStep m r)
    have h2 := length_dedupStep_le m r
    simp only [List.foldl_cons, List.length_cons]
    omega

theorem length_latestById_le (results : List SearchResultItem) :
    (latestById results).length ≤ results.length := by
  have h := length_foldl_dedupStep_le results []
  simpa [latestById] using h

theorem nodup_keys_latestById (results : List SearchResultItem) :
    ((latestById results).map Prod.fst).Nodup :=
  nodup_keys_foldl_dedupStep results [] (by simp)

theorem mem_keys_latestById (results : List SearchResultItem) (i : String) :
    i ∈ (latestById results).map Prod.fst ↔ i ∈ results.map SearchResultItem.id := by
  have h := keys_foldl_dedupStep results [] i
  simpa [latestById] using h

theorem scoreDescLe_total (a b : SearchResultItem) :
    (scoreDescLe a b || scoreDescLe b a) = true := by
  simp only [scoreDescLe, Bool.or_eq_true, decide_eq_true_eq]
  exact Int.le_total _ _

theorem scoreDescLe_trans (a b c : SearchResultItem)
    (h1 : scoreDescLe a b = true) (h2 : scoreDescLe b c = true) :
    scoreDescLe a c = true := by
  simp only [scoreDescLe, decide_eq_true_eq] at h1 h2 ⊢
  omega

theorem dedupedResults_eq_sort_of_le (results : List SearchResultItem) (topN : Nat)
    (h : (latestById results).length ≤ topN) :
    dedupedResults results topN =
      ((latestById results).map Prod.snd).mergeSort scoreDescLe := by
  unfold dedupedResults
  apply List.take_of_length_le
  rw [List.length_mergeSort, List.length_map]
  exact h

theorem dedupedResults_single_value (results : List SearchResultItem)
    (keep : SearchResultItem) (topN : Nat)
    (h : (latestById results).map Prod.snd = [keep]) (htop : 1 ≤ topN) :
    dedupedResults results topN = [keep] := by
  unfold dedupedResults
  rw [h]
  obtain ⟨n, rfl⟩ : ∃ n, topN = n + 1 := ⟨topN - 1, by omega⟩
  simp

theorem latestById_pair (r1 r2 : SearchResultItem) :
    latestById [r1, r2] = dedupStep (dedupStep [] r1) r2 := rfl

/-- C1: in `searchLongTermMemory`'s de-duplication, a fetched row carrying
an `insert_timestamp` replaces the map entry for its id exactly when no
entry exists yet, or the existing entry lacks an `insert_timestamp`, or the
existing entry's `insert_timestamp` is strictly earlier; consequently, when
two rows share an id and carry timestamps `t1 < t2`, only the `t2` row
appears in the result, in either fetch order. -/
theorem searchDedup_versioned_replacement
    (m : LatestByIdMap) (item : SearchResultItem) (ts : Int)
    (r1 r2 : SearchResultItem) (t1 t2 : Int) (topN : Nat)
    (hts : item.insert_timestamp = some ts)
    (hid : r1.id = r2.id)
    (h1 : r1.insert_timestamp = some t1) (h2 : r2.insert_timestamp = some t2)
    (hlt : t1 < t2) (htop : 1 ≤ topN) :
    dedupStep m item = (if specReplaceCond m item.id ts then mapSet m item.id item else m)
    ∧ dedupedResults [r1, r2] topN = [r2]
    ∧ dedupedResults [r2, r1] topN = [r2] := by
  refine ⟨?_, ?_, ?_⟩
  · rcases hget : mapGet m item.id with _ | ex
    · rw [dedupStep_versioned_empty m item ts hts hget]
      simp [specReplaceCond, hget]
    · rcases hex : ex.insert_timestamp with _ | ts'
      · rw [dedupStep_versioned_overLegacy m item ex ts hts hget hex]
        simp [specReplaceCond, hget, hex]
      · rw [dedupStep_versioned_cmp m item ex ts ts' hts hget hex]
        simp [specReplaceCond, hget, hex]
  · apply dedupedResults_single_value _ _ _ _ htop
    rw [latestById_pair]
    have hstep1 : dedupStep [] r1 = [(r1.id, r1)] := by
      rw [dedupStep_versioned_empty [] r1 t1 h1 rfl]; rfl
    have hget2 : mapGet [(r1.id, r1)] r2.id = some r1 := by simp [mapGet, hid]
    rw [hstep1, dedupStep_versioned_cmp [(r1.id, r1)] r2 r1 t2 t1 h2 hget2 h1,
      if_pos hlt]
    simp [mapSet, hid]
  · apply dedupedResults_single_value _ _ _ _ htop
    rw [latestById_pair]
    have hstep1 : dedupStep [] r2 = [(r2.id, r2)] := by
      rw [dedupStep_versioned_empty [] r2 t2 h2 rfl]; rfl
    have hget2 : mapGet [(r2.id, r2)] r1.id = some r2 := by simp [mapGet, hid.symm]
    rw [hstep1, dedupStep_versioned_cmp [(r2.id, r2)] r1 r2 t1 t2 h1 hget2 h2,
      if_neg (by omega)]
    rfl

theorem searchDedup_versioned_replacement_witness :
    dedupedResults [⟨"a", "t1", [], 0, "s", some 9, some 1⟩,
        ⟨"a", "t2", [], 0, "s", some 7, some 2⟩] 3
      = [⟨"a", "t2", [], 0, "s", some 7, some 2⟩]
    ∧ dedupedResults [⟨"a", "t2", [], 0, "s", some 7, some 2⟩,
        ⟨"a", "t1", [], 0, "s", some 9, some 1⟩] 3
      = [⟨"a", "t2", [], 0, "s", some 7, some 2⟩] := by
  have h := searchDedup_versioned_replacement []
    ⟨"a", "t1", [], 0, "s", some 9, some 1⟩ 1
    ⟨"a", "t1", [], 0, "s", some 9, some 1⟩
    ⟨"a", "t2", [], 0, "s", some 7, some 2⟩ 1 2 3
    rfl rfl rfl rfl (by decide) (by decide)
  exact ⟨h.2.1, h.2.2⟩

/-- C2: in `searchLongTermMemory`'s de-duplication, a fetched row lacking
an `insert_timestamp` (legacy row) is inserted only when no entry exists
yet for its id and never overwrites an existing entry; hence, given one
legacy row and one versioned row for the same id, the versioned row is
returned, whichever is encountered first. -/
theorem searchDedup_legacy_insertion
    (m : LatestByIdMap) (item : SearchResultItem)
    (leg ver : SearchResultItem) (t : Int) (topN : Nat)
    (hts : item.insert_timestamp = none)
    (hid : leg.id = ver.id)
    (hlegts : leg.insert_timestamp = none) (hverts : ver.insert_timestamp = some t)
    (htop : 1 ≤ topN) :
    dedupStep m item = (if mapHas m item.id then m else mapSet m item.id item)
    ∧ dedupedResults [leg, ver] topN = [ver]
    ∧ dedupedResults [ver, leg] topN = [ver] := by
  refine ⟨dedupStep_legacy m item hts, ?_, ?_⟩
  · apply dedupedResults_single_value _ _ _ _ htop
    rw [latestById_pair]
    have hstep1 : dedupStep [] leg = [(leg.id, leg)] := by
      rw [dedupStep_legacy [] leg hlegts]
      rfl
    have hget2 : mapGet [(leg.id, leg)] ver.id = some leg := by simp [mapGet, hid]
    rw [hstep1, dedupStep_versioned_overLegacy [(leg.id, leg)] ver leg t hverts hget2 hlegts]
    simp [mapSet, hid]
  · apply dedupedResults_single_value _ _ _ _ htop
    rw [latestById_pair]
    have hstep1 : dedupStep [] ver = [(ver.id, ver)] := by
      rw [dedupStep_versioned_empty [] ver t hverts rfl]; rfl
    have hhas : mapHas [(ver.id, ver)] leg.id = true := by simp [mapHas, hid.symm]
    rw [hstep1, dedupStep_legacy [(ver.id, ver)] leg hlegts, if_pos hhas]
    rfl

theorem searchDedup_legacy_insertion_witness :
    dedupedResults [⟨"a", "old", [], 0, "s", some 9, none⟩,
        ⟨"a", "new", [], 0, "s", some 7, some 5⟩] 2
      = [⟨"a", "new", [], 0, "s", some 7, some 5⟩]
    ∧ dedupedResults [⟨"a", "new", [], 0, "s", some 7, some 5⟩,
        ⟨"a", "old", [], 0, "s", some 9, none⟩] 2
      = [⟨"a", "new", [], 0, "s", some 7, some 5⟩] := by
  have h := searchDedup_legacy_insertion []
    ⟨"a", "old", [], 0, "s", some 9, none⟩
    ⟨"a", "old", [], 0, "s", some 9, none⟩
    ⟨"a", "new", [], 0, "s", some 7, some 5⟩ 5 2
    rfl rfl rfl rfl (by decide)
  exact ⟨h.2.1, h.2.2⟩

/-- C9 (implicit): when two rows share an id and carry equal
`insert_timestamp`s, the replacement test is strict (`>`), so the
first-encountered row is kept and equal-timestamp versions are resolved by
fetch order. -/
theorem searchDedup_equal_timestamp_keeps_first
    (m : LatestByIdMap) (item ex : SearchResultItem) (ts : Int)
    (r1 r2 : SearchResultItem) (t : Int) (topN : Nat)
    (hts : item.insert_timestamp = some ts)
    (hget : mapGet m item.id = some ex) (hex : ex.insert_timestamp = some ts)
    (hid : r1.id = r2.id)
    (h1 : r1.insert_timestamp = some t) (h2 : r2.insert_timestamp = some t)
    (htop : 1 ≤ topN) :
    dedupStep m item = m
    ∧ dedupedResults [r1, r2] topN = [r1] := by
  constructor
  · rw [dedupStep_versioned_cmp m item ex ts ts hts hget hex, if_neg (lt_irrefl ts)]
  · apply dedupedResults_single_value _ _ _ _ htop
    rw [latestById_pair]
    have hstep1 : dedupStep [] r1 = [(r1.id, r1)] := by
      rw [dedupStep_versioned_empty [] r1 t h1 rfl]; rfl
    have hget2 : mapGet [(r1.id, r1)] r2.id = some r1 := by simp [mapGet, hid]
    rw [hstep1, dedupStep_versioned_cmp [(r1.id, r1)] r2 r1 t t h2 hget2 h1,
      if_neg (lt_irrefl t)]
    rfl

theorem searchDedup_equal_timestamp_keeps_first_witness :
    dedupedResults [⟨"a", "first", [], 0, "s", some 3, some 7⟩,
        ⟨"a", "second", [], 0, "s", some 8, some 7⟩] 2
      = [⟨"a", "first", [], 0, "s", some 3, some 7⟩] := by
  have h := searchDedup_equal_timestamp_keeps_first
    [("a", ⟨"a", "first", [], 0, "s", some 3, some 7⟩)]
    ⟨"a", "second", [], 0, "s", some 8, some 7⟩
    ⟨"a", "first", [], 0, "s", some 3, some 7⟩ 7
    ⟨"a", "first", [], 0, "s", some 3, some 7⟩
    ⟨"a", "second", [], 0, "s", some 8, some 7⟩ 7 2
    rfl (by simp [mapGet]) rfl rfl rfl rfl (by decide)
  exact h.2

/-- C3: for every list of fetched rows (the engine returns at most `topN`
of them, since it limits before de-duplication), the sequence returned by
`searchLongTermMemory` is the de-duplicated set sorted by descending score
(missing score treated as zero), whatever the underlying fetch order. -/
theorem searchLongTermMemory_sorted_result
    (queryEmbedding : List Int) (results : List SearchResultItem) (topN : Nat)
    (hemb : queryEmbedding ≠ [])
    (hlen : results.length ≤ topN) :
    searchLongTermMemory (.ok (some ())) queryEmbedding topN (.ok results)
      = .ok (dedupedResults results topN)
    ∧ (dedupedResults results topN).Perm ((latestById results).map Prod.snd)
    ∧ (dedupedResults results topN).Pairwise (fun a b => scoreDescLe a b = true) := by
  have hmaple : (latestById results).length ≤ topN :=
    le_trans (length_latestById_le results) hlen
  refine ⟨?_, ?_, ?_⟩
  · simp [searchLongTermMemory, hemb]
  · rw [dedupedResults_eq_sort_of_le results topN hmaple]
    exact List.mergeSort_perm _ _
  · rw [dedupedResults_eq_sort_of_le results topN hmaple]
    exact List.sorted_mergeSort scoreDescLe_trans scoreDescLe_total _

theorem searchLongTermMemory_sorted_result_witness :
    searchLongTermMemory (.ok (some ())) [1] 2
        (.ok [⟨"x", "tx", [], 0, "s", some 5, some 1⟩,
              ⟨"y", "ty", [], 0, "s", some 9, some 1⟩])
      = .ok (dedupedResults [⟨"x", "tx", [], 0, "s", some 5, some 1⟩,
              ⟨"y", "ty", [], 0, "s", some 9, some 1⟩] 2)
    ∧ (dedupedResults [⟨"x", "tx", [], 0, "s", some 5, some 1⟩,
              ⟨"y", "ty", [], 0, "s", some 9, some 1⟩] 2).Perm
        ((latestById [⟨"x", "tx", [], 0, "s", some 5, some 1⟩,
              ⟨"y", "ty", [], 0, "s", some 9, some 1⟩]).map Prod.snd)
    ∧ (dedupedResults [⟨"x", "tx", [], 0, "s", some 5, some 1⟩,
              ⟨"y", "ty", [], 0, "s", some 9, some 1⟩] 2).Pairwise
        (fun a b => scoreDescLe a b = true) :=
  searchLongTermMemory_sorted_result [1]
    [⟨"x", "tx", [], 0, "s", some 5, some 1⟩,
     ⟨"y", "ty", [], 0, "s", some 9, some 1⟩] 2
    (by decide) (by decide)

/-- C4: the result of the de-duplication pipeline has exactly one row per
distinct id of the fetched rows; its length equals that number of distinct
ids whenever it is at most `topN` (never padded up to `topN`), and it never
exceeds `topN`. -/
theorem searchDedup_truncation
    (results : List SearchResultItem) (topN : Nat) :
    (dedupedResults results topN).length ≤ topN
    ∧ ((latestById results).length ≤ topN →
        (dedupedResults results topN).length = (latestById results).length)
    ∧ ((latestById results).map Prod.fst).Nodup
    ∧ (∀ i, i ∈ (latestById results).map Prod.fst ↔
        i ∈ results.map SearchResultItem.id) := by
  refine ⟨?_, ?_, nodup_keys_latestById results, mem_keys_latestById results⟩
  · unfold dedupedResults
    rw [List.length_take]
    exact min_le_left _ _
  · intro h
    rw [dedupedResults_eq_sort_of_le results topN h, List.length_mergeSort,
      List.length_map]

theorem searchDedup_truncation_witness :
    (dedupedResults [⟨"a", "t1", [], 0, "s", some 9, some 1⟩,
        ⟨"a", "t2", [], 0, "s", some 7, some 2⟩,
        ⟨"b", "t3", [], 0, "s", some 5, some 1⟩] 3).length = 2 := by
  have h := searchDedup_truncation
    [⟨"a", "t1", [], 0, "s", some 9, some 1⟩,
     ⟨"a", "t2", [], 0, "s", some 7, some 2⟩,
     ⟨"b", "t3", [], 0, "s", some 5, some 1⟩] 3
  have hlen : (latestById [⟨"a", "t1", [], 0, "s", some 9, some 1⟩,
      ⟨"a", "t2", [], 0, "s", some 7, some 2⟩,
      ⟨"b", "t3", [], 0, "s", some 5, some 1⟩]).length = 2 := by decide
  rw [h.2.1 (by rw [hlen]; decide), hlen]

/-- C5: `searchLongTermMemory` returns an empty sequence, without raising,
whenever the table handle is unavailable after initialization, or the query
embedding is empty, or the underlying query execution throws; search errors
never propagate to the caller. -/
theorem searchLongTermMemory_degrades
    (tbl : Option Unit) (queryEmbedding : List Int) (topN : Nat)
    (fetch : Except String (List SearchResultItem)) (e : String) :
    searchLongTermMemory (.ok none) queryEmbedding topN fetch = .ok []
    ∧ searchLongTermMemory (.ok tbl) [] topN fetch = .ok []
    ∧ searchLongTermMemory (.ok tbl) queryEmbedding topN (.error e) = .ok [] := by
  refine ⟨rfl, ?_, ?_⟩
  · rcases tbl with _ | _ <;> rfl
  · rcases tbl with _ | _
    · rfl
    · by_cases h : queryEmbedding.isEmpty <;> simp [searchLongTermMemory, h]

theorem initializeVectorStore_noop (st : VSState) (env : InitEnv)
    (h : st.isInitialized = true) :
    initializeVectorStore st env = ⟨st, .ok (), 0⟩ := by
  simp [initializeVectorStore, h]

theorem initializeVectorStore_error_state (st : VSState) (env : InitEnv) (e : String)
    (h : (initializeVectorStore st env).outcome = .error e) :
    (initializeVectorStore st env).state = ⟨none, none, false⟩ := by
  by_cases hi : st.isInitialized
  · rw [initializeVectorStore_noop st env hi] at h
    cases h
  · obtain ⟨cr, tnr, otr, er, ctr⟩ := env
    rw [Bool.not_eq_true] at hi
    rcases cr with e1 | c
    · simp [initializeVectorStore, hi]
    · rcases tnr with e2 | names
      · simp [initializeVectorStore, hi]
      · by_cases hmem : TABLE_NAME ∈ names
        · rcases otr with e3 | t
          · simp [initializeVectorStore, hi, hmem]
          · simp [initializeVectorStore, hi, hmem] at h
        · rcases er with e4 | semb
          · simp [initializeVectorStore, hi, hmem]
          · rcases semb with _ | v
            · simp [initializeVectorStore, hi, hmem]
            · by_cases hdim : v.length = 0
              · simp [initializeVectorStore, hi, hmem, hdim]
              · rcases ctr with e5 | t
                · simp [initializeVectorStore, hi, hmem, hdim]
                · simp [initializeVectorStore, hi, hmem, hdim] at h

theorem initializeVectorStore_ok_state (st : VSState) (env : InitEnv)
    (hi : st.isInitialized = false)
    (h : (initializeVectorStore st env).outcome = .ok ()) :
    (initializeVectorStore st env).state = ⟨some (), some (), true⟩ := by
  obtain ⟨cr, tnr, otr, er, ctr⟩ := env
  rcases cr with e1 | c
  · simp [initializeVectorStore, hi] at h
  · rcases tnr with e2 | names
    · simp [initializeVectorStore, hi] at h
    · by_cases hmem : TABLE_NAME ∈ names
      · rcases otr with e3 | t
        · simp [initializeVectorStore, hi, hmem] at h
        · simp [initializeVectorStore, hi, hmem]
      · rcases er with e4 | semb
        · simp [initializeVectorStore, hi, hmem] at h
        · rcases semb with _ | v
          · simp [initializeVectorStore, hi, hmem] at h
          · by_cases hdim : v.length = 0
            · simp [initializeVectorStore, hi, hmem, hdim] at h
            · rcases ctr with e5 | t
              · simp [initializeVectorStore, hi, hmem, hdim] at h
              · simp [initializeVectorStore, hi, hmem, hdim]

theorem initializeVectorStore_state_initialized_of_ok (st : VSState) (env : InitEnv)
    (h : (initializeVectorStore st env).outcome = .ok ()) :
    (initializeVectorStore st env).state.isInitialized = true := by
  by_cases hi : st.isInitialized
  · rw [initializeVectorStore_noop st env hi]
    exact hi
  · rw [initializeVectorStore_ok_state st env (Bool.not_eq_true _ ▸ hi) h]

theorem initRun_initialized (st : VSState) (envs : List InitEnv)
    (h : st.isInitialized = true) : initRun st envs = (st, 0, 0) := by
  induction envs with
  | nil => rfl
  | cons env rest ih =>
    simp [initRun, initializeVectorStore_noop st env h, ih]

theorem initRun_successes_le_one (st : VSState) (envs : List InitEnv) :
    (initRun st envs).2.2 ≤ 1 := by
  induction envs generalizing st with
  | nil => simp [initRun]
  | cons env rest ih =>
    simp only [initRun]
    by_cases hok : (initializeVectorStore st env).state.isInitialized
    · rw [initRun_initialized _ rest hok]
      split <;> simp
    · have hnot : ¬ ((initializeVectorStore st env).createAttempts = 1
          ∧ (initializeVectorStore st env).outcome.isOk) := by
        rintro ⟨-, hOk⟩
        have hok' : (initializeVectorStore st env).outcome = .ok () := by
          rcases ho : (initializeVectorStore st env).outcome with e | u
          · rw [ho] at hOk
            simp [Except.isOk, Except.toBool] at hOk
          · rcases u with ⟨⟩
            rfl
        exact hok (initializeVectorStore_state_initialized_of_ok st env hok')
      rw [if_neg hnot]
      simpa using ih (initializeVectorStore st env).state

/-- C6 counterexample: when initialization throws, `addOrUpdateMemoryItems`
propagates the error to its caller, so the claim that it never raises is
false at this input. -/
theorem addOrUpdateMemoryItems_raises_on_init_failure :
    addOrUpdateMemoryItems (.error "init failed") [⟨"a", "t", [], 0, "s"⟩] 0 (.ok ())
      = .error "init failed"
    ∧ (addOrUpdateMemoryItems (.error "init failed")
        [⟨"a", "t", [], 0, "s"⟩] 0 (.ok ())).isOk = false := ⟨rfl, rfl⟩

/-- C6 (amended): apart from initialization errors, which propagate,
`addOrUpdateMemoryItems` never raises to its caller: any failure during the
append is caught, logged and swallowed; it returns without error when the
table handle is unavailable after a non-throwing initialization, and it is
a no-op when `items` is empty. -/
theorem addOrUpdateMemoryItems_swallows_append_errors
    (tbl : Option Unit) (items : List LongTermMemoryData) (now : Int)
    (addR : Except String Unit) (e : String) :
    (addOrUpdateMemoryItems (.ok tbl) items now addR).isOk = true
    ∧ addOrUpdateMemoryItems (.ok none) items now addR = .ok .noTable
    ∧ addOrUpdateMemoryItems (.ok (some ())) [] now addR = .ok .noItems
    ∧ (items ≠ [] →
        addOrUpdateMemoryItems (.ok (some ())) items now (.error e)
          = .ok .appendFailed) := by
  refine ⟨?_, rfl, rfl, ?_⟩
  · rcases tbl with _ | _
    · rfl
    · by_cases h : items.isEmpty
      · simp [addOrUpdateMemoryItems, h, Except.isOk, Except.toBool]
      · rcases addR with e' | u <;>
          simp [addOrUpdateMemoryItems, h, Except.isOk, Except.toBool]
  · intro h
    have h' : items.isEmpty = false := by simp [h]
    simp [addOrUpdateMemoryItems, h']

theorem addOrUpdateMemoryItems_swallows_append_errors_witness :
    addOrUpdateMemoryItems (.ok (some ())) [⟨"a", "t", [], 0, "s"⟩] 0 (.error "disk full")
      = .ok .appendFailed :=
  (addOrUpdateMemoryItems_swallows_append_errors (some ()) [⟨"a", "t", [], 0, "s"⟩] 0
    (.error "disk full") "disk full").2.2.2 (by decide)

/-- C7: if any step of initialization fails (connect, table listing, table
open, embedding call, dimension check, or table creation), the state is
reset to not-ready (flag false, connection and table handles cleared) and
the error is re-raised; a successful run from an uninitialized state always
ends fully initialized, so partial initialization is never reported as
success. -/
theorem initializeVectorStore_failure_resets
    (st : VSState) (env : InitEnv) (e : String)
    (hinit : st.isInitialized = false) :
    ((initializeVectorStore st env).outcome = .error e →
      (initializeVectorStore st env).state = ⟨none, none, false⟩)
    ∧ ((initializeVectorStore st env).outcome = .ok () →
      (initializeVectorStore st env).state = ⟨some (), some (), true⟩) :=
  ⟨initializeVectorStore_error_state st env e,
   initializeVectorStore_ok_state st env hinit⟩

theorem initializeVectorStore_failure_resets_witness :
    (initializeVectorStore ⟨none, none, false⟩
        ⟨.error "connect refused", .ok [], .ok (), .ok none, .ok ()⟩).state
      = ⟨none, none, false⟩ :=
  (initializeVectorStore_failure_resets ⟨none, none, false⟩
    ⟨.error "connect refused", .ok [], .ok (), .ok none, .ok ()⟩
    "connect refused" rfl).1 rfl

/-- C8 counterexample: two calls from a fresh state whose environments both
reach table creation and fail make two table-creation attempts, so "N calls
produce at most one table-creation attempt" is false at this input. -/
theorem initializeVectorStore_retry_attempts :
    (initRun ⟨none, none, false⟩
        [⟨.ok (), .ok [], .ok (), .ok (some [0]), .error "create failed"⟩,
         ⟨.ok (), .ok [], .ok (), .ok (some [0]), .error "create failed"⟩]).2.1 = 2
    ∧ ¬ (initRun ⟨none, none, false⟩
        [⟨.ok (), .ok [], .ok (), .ok (some [0]), .error "create failed"⟩,
         ⟨.ok (), .ok [], .ok (), .ok (some [0]), .error "create failed"⟩]).2.1 ≤ 1 := by
  constructor
  · rfl
  · decide

/-- C8 (amended): once the process-wide `isInitialized` flag is set, every
call to `initializeVectorStore` returns immediately, leaves the state
untouched and performs no table-creation attempt, and a whole run of calls
from an initialized state performs none; consequently any sequence of calls
performs at most one successful table creation (failed initializations may
retry creation on later calls). -/
theorem initializeVectorStore_idempotent
    (st st' : VSState) (env : InitEnv) (envs : List InitEnv)
    (h : st.isInitialized = true) :
    initializeVectorStore st env = ⟨st, .ok (), 0⟩
    ∧ initRun st envs = (st, 0, 0)
    ∧ (initRun st' envs).2.2 ≤ 1 :=
  ⟨initializeVectorStore_noop st env h, initRun_initialized st envs h,
   initRun_successes_le_one st' envs⟩

theorem initializeVectorStore_idempotent_witness :
    initializeVectorStore ⟨some (), some (), true⟩
        ⟨.ok (), .ok [], .ok (), .ok (some [0]), .ok ()⟩
      = ⟨⟨some (), some (), true⟩, .ok (), 0⟩
    ∧ initRun ⟨some (), some (), true⟩
        [⟨.ok (), .ok [], .ok (), .ok (some [0]), .ok ()⟩]
      = (⟨some (), some (), true⟩, 0, 0)
    ∧ (initRun ⟨none, none, false⟩
        [⟨.ok (), .ok [], .ok (), .ok (some [0]), .ok ()⟩]).2.2 ≤ 1 :=
  initializeVectorStore_idempotent ⟨some (), some (), true⟩ ⟨none, none, false⟩
    ⟨.ok (), .ok [], .ok (), .ok (some [0]), .ok ()⟩
    [⟨.ok (), .ok [], .ok (), .ok (some [0]), .ok ()⟩] rfl

/-- C10 (implicit): the `query` tool handler throws
`Only READ operations are allowed`, before contacting the backend, for
every SQL string whose uppercased text contains INSERT, UPDATE, DELETE,
CREATE or DROP as a substring — occurrences inside identifiers or literals
included. -/
theorem queryToolHandler_rejects_write_keywords
    (sql : String) (rest : Except String (List String))
    (h : containsWriteKeyword sql = true) :
    queryToolHandler sql rest = .error "Only READ operations are allowed" := by
  simp [queryToolHandler, h]

theorem queryToolHandler_rejects_write_keywords_witness :
    containsWriteKeyword "SELECT created_at FROM t" = true
    ∧ queryToolHandler "SELECT created_at FROM t" (.ok ["row"])
        = .error "Only READ operations are allowed" :=
  ⟨by decide,
   queryToolHandler_rejects_write_keywords "SELECT created_at FROM t"
     (.ok ["row"]) (by decide)⟩
